import Mathlib

/-!
Verification of the attribute-observation engine of `aiopomodoro`
(`src/aiopomodoro/aioobserve.py`).

The module under study provides:
* `ObservableMixIn` — an entity whose attribute mutations are dispatched
  synchronously to per-name subscriber callbacks (`setattrFn`, `delattrFn`);
* the sentinel `DELETED` delivered on attribute deletion (`ObsVal.deleted`);
* `notify` — manual re-dispatch of current values (`notifyFn`);
* the `state` generator plus `observe` — a coalescing single-slot bridge from
  synchronous dispatch to an asynchronous stream (`Bridge`, `Bridge.send`,
  `observeRead`), with guaranteed unsubscription in a `finally` clause
  (`register`, `observeCleanup`, `observeFinalize`);
* the drivers `seq` (sequential, `seqRun`) and `switch` (exclusive,
  `switchStep` / `switchRun`, built on an `ExitStack` of cancel callbacks).

Callbacks are identified by natural numbers; attribute values are drawn from
an arbitrary type `V`.  Python `set`s of callbacks are modelled as lists (one
fixed iteration order; the source leaves the order unspecified).
-/

namespace Aioobserve

variable {V : Type}

/-- A value delivered to subscriber callbacks: either an ordinary attribute
value or the `DELETED` sentinel (`DELETED = object()` in the source, a fresh
marker distinct from every ordinary value). -/
inductive ObsVal (V : Type) where
  | deleted
  | ofVal (v : V)
deriving DecidableEq

/-- An observable entity (`ObservableMixIn`): the instance dictionary, split
into the attribute-to-value part and the `SENTINEL`-keyed subscriber table
(`defaultdict(set)`: every name has a — possibly empty — callback set). -/
structure Entity (V : Type) where
  attrs : String → Option V
  subs : String → List Nat

/-- One callback invocation performed during a dispatch fan-out: the callback
identifier, the argument passed to it, and the entity state in effect while
the callback body runs. -/
structure Invocation (V : Type) where
  cb : Nat
  arg : ObsVal V
  state : Entity V

/-- `super().__setattr__(name, value)`: store the value into the instance
dictionary. -/
def Entity.store (e : Entity V) (name : String) (v : V) : Entity V :=
  { e with attrs := fun n => if n = name then some v else e.attrs n }

/-- `super().__delattr__(name)`: remove the attribute from the instance
dictionary. -/
def Entity.remove (e : Entity V) (name : String) : Entity V :=
  { e with attrs := fun n => if n = name then none else e.attrs n }

/-- `ObservableMixIn.__setattr__`: first the store, then the synchronous
fan-out of the new value to every subscriber registered for `name`.  Each
invocation records the post-store entity as the state the callback observes,
because the source mutates `self` before the dispatch loop. -/
def setattrFn (e : Entity V) (name : String) (v : V) :
    Entity V × List (Invocation V) :=
  let e1 := e.store name v
  (e1, (e1.subs name).map fun c => ⟨c, ObsVal.ofVal v, e1⟩)

/-- `ObservableMixIn.__delattr__`: `none` models the `AttributeError` raised
by `super().__delattr__` when the attribute is absent; otherwise the removal
happens first and every subscriber for `name` is then invoked with the
`DELETED` sentinel, observing the post-removal entity. -/
def delattrFn (e : Entity V) (name : String) :
    Option (Entity V × List (Invocation V)) :=
  match e.attrs name with
  | none => none
  | some _ =>
    let e1 := e.remove name
    some (e1, (e1.subs name).map fun c => ⟨c, ObsVal.deleted, e1⟩)

/-- The error raised by `notify`: `getattr` fails with `AttributeError`
(the spec's `AttributeMissing`) when the attribute has no current value. -/
inductive NotifyError where
  | attributeMissing (name : String)
deriving DecidableEq

/-- The loop body of `notify`: iterate over the requested names; a name with
an empty (falsy) callback set is skipped; otherwise `getattr` reads the
current value — failing when there is none — and every callback is invoked
with it, incrementing the counter once per invocation. -/
def notifyGo (e : Entity V) :
    List String → Nat → List (Invocation V) →
    Except NotifyError (Nat × List (Invocation V))
  | [], count, log => Except.ok (count, log)
  | name :: rest, count, log =>
    match e.subs name with
    | [] => notifyGo e rest count log
    | c :: cs =>
      match e.attrs name with
      | none => Except.error (NotifyError.attributeMissing name)
      | some v =>
        notifyGo e rest (count + (c :: cs).length)
          (log ++ (c :: cs).map fun cb => ⟨cb, ObsVal.ofVal v, e⟩)

/-- `notify(observable, *args)`: returns the invocation count and the log of
invocations performed; the entity is threaded through unchanged because the
source only reads from it. -/
def notifyFn (e : Entity V) (names : List String) :
    Except NotifyError (Entity V × Nat × List (Invocation V)) :=
  (notifyGo e names 0 []).map fun pr => (e, pr.1, pr.2)

/-- Restates the spec sentence for `notify`'s fan-out, for comparison with
`notifyFn`: for each listed name, all of its subscribers are re-invoked with
the name's current value (skipping names without a value contributes
nothing). -/
def notifySpecInvocations (e : Entity V) (names : List String) :
    List (Invocation V) :=
  names.foldr
    (fun n acc =>
      (match e.attrs n with
       | some v => (e.subs n).map fun c => ⟨c, ObsVal.ofVal v, e⟩
       | none => []) ++ acc)
    []

/-- The dispatch loop `for function in o: function(value)` in the presence of
subscriber exceptions: `raises c = true` means callback `c` raises when
invoked.  Returns the callbacks actually invoked, in order, and whether an
exception propagated out of the loop (aborting it). -/
def dispatchLoop (raises : Nat → Bool) : List Nat → List Nat × Bool
  | [] => ([], false)
  | c :: rest =>
    if raises c then ([c], true)
    else
      let pr := dispatchLoop raises rest
      (c :: pr.1, pr.2)

/-- `__setattr__` with possibly-raising subscribers: the store always happens,
then the fan-out loop runs until it completes or a subscriber raises. -/
def setattrRaising (e : Entity V) (raises : Nat → Bool) (name : String)
    (v : V) : Entity V × List Nat × Bool :=
  let e1 := e.store name v
  (e1, dispatchLoop raises (e1.subs name))

/-- `__delattr__` with possibly-raising subscribers: `none` models the
`AttributeError` on an absent attribute; otherwise the removal always
happens, then the same unguarded fan-out loop runs with the `DELETED`
sentinel until it completes or a subscriber raises. -/
def delattrRaising (e : Entity V) (raises : Nat → Bool) (name : String) :
    Option (Entity V × List Nat × Bool) :=
  match e.attrs name with
  | none => none
  | some _ =>
    let e1 := e.remove name
    some (e1, dispatchLoop raises (e1.subs name))

/-- The loop of `notify` with possibly-raising subscribers: a name with an
empty (falsy) callback set is skipped; a name with callbacks but no current
value raises `AttributeMissing`; otherwise the unguarded inner loop runs,
and a subscriber exception propagates out of `notify` at once, abandoning
the remaining names.  Returns the callbacks invoked, in order, and whether a
subscriber exception propagated (the source's running count — returned only
on the exception-free path — is the number of completed invocations). -/
def notifyRaisingGo (e : Entity V) (raises : Nat → Bool) :
    List String → List Nat → Except NotifyError (List Nat × Bool)
  | [], log => Except.ok (log, false)
  | name :: rest, log =>
    match e.subs name with
    | [] => notifyRaisingGo e raises rest log
    | c :: cs =>
      match e.attrs name with
      | none => Except.error (NotifyError.attributeMissing name)
      | some _ =>
        if (dispatchLoop raises (c :: cs)).2 then
          Except.ok (log ++ (dispatchLoop raises (c :: cs)).1, true)
        else notifyRaisingGo e raises rest (log ++ (dispatchLoop raises (c :: cs)).1)

/-- `notify(observable, *args)` with possibly-raising subscribers. -/
def notifyRaising (e : Entity V) (raises : Nat → Bool) (names : List String) :
    Except NotifyError (List Nat × Bool) :=
  notifyRaisingGo e raises names []

/-- Restates the amended fan-out contract, for comparison with the dispatch
loops of `set`, `delete` and `notify`: the outcome of an unguarded loop is
the raise-free prefix of the iteration order plus the first raiser when one
exists (the exception then propagating, flag `true`), and the whole
subscriber list with no exception otherwise. -/
def prefixUntilRaise (raises : Nat → Bool) (cbs : List Nat) : List Nat × Bool :=
  match cbs.dropWhile (fun c => !raises c) with
  | [] => (cbs, false)
  | r :: _ => (cbs.takeWhile (fun c => !raises c) ++ [r], true)

/-- `observable.__dict__[SENTINEL][name].add(s.send)` in `observe`: register
a bridge callback into the entity's subscriber set for `name` (set semantics:
adding an already-present member is a no-op). -/
def register (e : Entity V) (name : String) (cb : Nat) : Entity V :=
  { e with
    subs := fun n =>
      if n = name then
        if (e.subs name).contains cb then e.subs name
        else e.subs name ++ [cb]
      else e.subs n }

/-- The `finally` clause of `observe`: if the subscriber set for `name` is
non-empty (truthy), discard the bridge's callback from it (`set.discard`:
remove the member if present). -/
def observeCleanup (e : Entity V) (name : String) (cb : Nat) : Entity V :=
  if (e.subs name).isEmpty then e
  else
    { e with
      subs := fun n =>
        if n = name then (e.subs name).filter (fun c => c != cb)
        else e.subs n }

/-- The ways the consuming coroutine of `observe` can terminate. -/
inductive Outcome where
  | completed
  | cancelled
  | failed
deriving DecidableEq

/-- Finalization of `observe`: the `try`/`finally` runs the same cleanup on
every termination path — normal completion, external cancellation, or a
propagated failure. -/
def observeFinalize (out : Outcome) (e : Entity V) (name : String)
    (cb : Nat) : Entity V :=
  match out with
  | Outcome.completed => observeCleanup e name cb
  | Outcome.cancelled => observeCleanup e name cb
  | Outcome.failed => observeCleanup e name cb

/-- The state of the `state` generator together with its `asyncio.Event`:
the single buffered slot (`value`, initially `None`) and whether the event is
set (initially clear). -/
structure Bridge (V : Type) where
  value : Option V
  signaled : Bool
deriving DecidableEq

/-- Inputs to the `state` generator: the private `read` sentinel sent by
`observe`'s loop, or a dispatched attribute value. -/
inductive BridgeIn (V : Type) where
  | read
  | update (v : V)

/-- One `send` into the `state` generator: a non-sentinel update overwrites
the slot and sets the event; the `read` sentinel clears the event.  The
generator then yields the current slot content back to the caller. -/
def Bridge.send (b : Bridge V) : BridgeIn V → Bridge V × Option V
  | BridgeIn.read => ({ b with signaled := false }, b.value)
  | BridgeIn.update v => ({ value := some v, signaled := true }, some v)

/-- `await signal.wait(); yield s.send(read)` in `observe`'s loop: the read
proceeds only when the event is set, and then delivers the slot content. -/
def observeRead (b : Bridge V) : Option (Bridge V × Option V) :=
  if b.signaled then some (b.send BridgeIn.read) else none

/-- Apply a batch of dispatches to a bridge, in order (each one coalesces
into the single slot). -/
def dispatchAll (b : Bridge V) (vs : List V) : Bridge V :=
  vs.foldl (fun b v => (b.send (BridgeIn.update v)).1) b

/-- Events in a driver execution trace: a handler invocation begins with a
value, a dispatch arrives, a handler invocation finishes. -/
inductive Ev (V : Type) where
  | beg (v : V)
  | disp (v : V)
  | fin (v : V)
deriving DecidableEq

/-- Execution of the `seq` driver over its bridge.  Each element of
`batches` is the sequence of dispatches that arrive before the driver next
runs: if the bridge is signaled the driver takes the buffered value, runs the
handler to completion (awaiting it when it is awaitable) while that batch of
dispatches coalesces into the bridge, then loops; otherwise it stays blocked
on `signal.wait()` while the batch arrives. -/
def seqRun (b : Bridge V) : List (List V) → List (Ev V)
  | [] => []
  | batch :: rest =>
    if b.signaled then
      match b.send BridgeIn.read with
      | (b1, some v) =>
        Ev.beg v :: (batch.map Ev.disp ++
          (Ev.fin v :: seqRun (dispatchAll b1 batch) rest))
      | (_, none) => []
    else batch.map Ev.disp ++ seqRun (dispatchAll b batch) rest

/-- Non-overlap of handler invocations in a trace: scanning left to right
with a flag recording whether an invocation is open, a `beg` may occur only
when none is open and a `fin` only when one is. -/
def alternatesFrom : Bool → List (Ev V) → Bool
  | _, [] => true
  | o, Ev.disp _ :: rest => alternatesFrom o rest
  | false, Ev.beg _ :: rest => alternatesFrom true rest
  | true, Ev.fin _ :: rest => alternatesFrom false rest
  | true, Ev.beg _ :: _ => false
  | false, Ev.fin _ :: _ => false

/-- The values with which handler invocations begin, in order. -/
def begValues (tr : List (Ev V)) : List V :=
  tr.filterMap fun e =>
    match e with
    | Ev.beg v => some v
    | _ => none

/-- The handler result observed by the drivers' `isawaitable` test: a plain
(non-awaitable) value, or an awaitable that will be wrapped into a task. -/
inductive HRes where
  | sync
  | coro
deriving DecidableEq

/-- Scheduler-visible actions of the `switch` driver: cancelling a task or
spawning one via `asyncio.create_task`. -/
inductive Act where
  | cancel (t : Nat)
  | spawn (t : Nat)
deriving DecidableEq

/-- The `switch` driver's loop state: the `ExitStack`'s registered
`task.cancel` callbacks (identified by task id) and a fresh-task-id counter
(`asyncio.create_task` always creates a new task). -/
structure SwState where
  stack : List Nat
  next : Nat
deriving DecidableEq

/-- One iteration of `switch`'s loop body after the handler was applied to
the new value: when the result is not awaitable nothing happens; when it is
awaitable, `stack.close()` first runs the registered cancel callbacks (LIFO),
then the new task is created and its cancel callback registered. -/
def switchStep (s : SwState) : HRes → SwState × List Act
  | HRes.sync => (s, [])
  | HRes.coro =>
    (⟨[s.next], s.next + 1⟩,
      s.stack.reverse.map Act.cancel ++ [Act.spawn s.next])

/-- Teardown of the `switch` driver: leaving the `with ExitStack()` block
runs the remaining registered cancel callbacks (LIFO). -/
def switchTeardown (s : SwState) : List Act :=
  s.stack.reverse.map Act.cancel

/-- The full action trace of a `switch` driver run: one step per delivered
value's handler result, then the teardown on stream termination. -/
def switchRun (s : SwState) : List HRes → List Act
  | [] => switchTeardown s
  | r :: rest =>
    (switchStep s r).2 ++ switchRun (switchStep s r).1 rest

/-- Effect of one action on the set of live handler tasks (cancellation is
modelled as immediately effective, matching the spec's cooperative-
cancellation reading of "alive"). -/
def applyAct (live : List Nat) : Act → List Nat
  | Act.spawn t => t :: live
  | Act.cancel t => live.erase t

/-- Checks that after every action of the trace, at most one handler task is
live. -/
def boundedLive (live : List Nat) : List Act → Bool
  | [] => true
  | a :: rest =>
    decide ((applyAct live a).length ≤ 1) && boundedLive (applyAct live a) rest

/-! ## Helper lemmas -/

lemma not_mem_observeCleanup (e : Entity V) (name : String) (cb : Nat) :
    cb ∉ (observeCleanup e name cb).subs name := by
  unfold observeCleanup
  by_cases h : (e.subs name).isEmpty
  · rw [List.isEmpty_iff] at h
    simp [h]
  · simp [h, List.mem_filter]

lemma setattr_all_ne (e : Entity V) (name : String) (v : V) (cb : Nat)
    (h : cb ∉ e.subs name) :
    ((setattrFn e name v).2.all fun inv => inv.cb != cb) = true := by
  simp only [setattrFn, Entity.store, List.all_eq_true]
  intro inv hinv
  simp only [List.mem_map] at hinv
  obtain ⟨c, hc, rfl⟩ := hinv
  exact bne_iff_ne.mpr fun hceq => h (hceq ▸ hc)

lemma dispatchLoop_eq (raises : Nat → Bool) (cbs : List Nat) :
    dispatchLoop raises cbs = prefixUntilRaise raises cbs := by
  induction cbs with
  | nil => rfl
  | cons c rest ih =>
    by_cases h : raises c
    · simp [dispatchLoop, prefixUntilRaise, h, List.dropWhile_cons,
        List.takeWhile_cons]
    · simp only [dispatchLoop, prefixUntilRaise, h, if_false, List.dropWhile_cons,
        List.takeWhile_cons, Bool.not_false, if_true, ih]
      cases hdrop : rest.dropWhile (fun c => !raises c) <;> simp [hdrop]

/-! ## Claim theorems -/

/-- C1: coalescing. For any bridge, dispatching `x` and then `y` (before the
consumer drains the stream) leaves the signal set and the single slot
overwritten with `y`; the consumer's next read delivers exactly `y`, and the
intermediate value `x` is never the value read. -/
theorem c1_coalescing (b : Bridge V) (x y : V) (h : x ≠ y) :
    (((b.send (BridgeIn.update x)).1.send (BridgeIn.update y)).1).signaled = true
    ∧ observeRead ((b.send (BridgeIn.update x)).1.send (BridgeIn.update y)).1
        = some (⟨some y, false⟩, some y)
    ∧ (observeRead (((b.send (BridgeIn.update x)).1.send (BridgeIn.update y)).1)).map
        (fun pr => pr.2) ≠ some (some x) := by
  refine ⟨rfl, rfl, ?_⟩
  simp [Bridge.send, observeRead]
  exact fun hxy => h hxy.symm

theorem c1_coalescing_witness :
    ((((Bridge.mk none false : Bridge Nat).send (BridgeIn.update 1)).1.send
        (BridgeIn.update 2)).1).signaled = true
    ∧ observeRead (((Bridge.mk none false : Bridge Nat).send (BridgeIn.update 1)).1.send
        (BridgeIn.update 2)).1 = some (⟨some 2, false⟩, some 2)
    ∧ (observeRead ((((Bridge.mk none false : Bridge Nat).send (BridgeIn.update 1)).1.send
        (BridgeIn.update 2)).1)).map (fun pr => pr.2) ≠ some (some 1) :=
  c1_coalescing (Bridge.mk none false) 1 2 (by decide)

/-- C2: cleanup on every termination path. Whatever the outcome of the
consuming coroutine (normal completion, cancellation, or failure), the
bridge callback registered by `observe` is removed from the entity's
subscriber set for the observed name, and a subsequent `set` on that name
does not invoke it. -/
theorem c2_cleanup_every_path (out : Outcome) (e : Entity V) (name : String)
    (cb : Nat) (v : V) :
    cb ∉ ((observeFinalize out (register e name cb) name cb).subs name)
    ∧ ((setattrFn (observeFinalize out (register e name cb) name cb) name v).2.all
        fun inv => inv.cb != cb) = true := by
  have h1 : cb ∉ ((observeFinalize out (register e name cb) name cb).subs name) := by
    cases out <;> exact not_mem_observeCleanup _ _ _
  exact ⟨h1, setattr_all_ne _ _ _ _ h1⟩

/-- C5 (counterexample): with no subscriber registered for the never-set
name, `notify` does not fail with `AttributeMissing`; it skips the name and
returns 0. -/
theorem c5_counterexample :
    notifyFn (⟨fun _ => none, fun _ => []⟩ : Entity Nat) ["x"]
      = Except.ok (⟨fun _ => none, fun _ => []⟩, 0, [])
    ∧ notifyFn (⟨fun _ => none, fun _ => []⟩ : Entity Nat) ["x"]
      ≠ Except.error (NotifyError.attributeMissing "x") :=
  ⟨rfl, by simp [notifyFn, notifyGo, Except.map]⟩

/-- C5 (amended): for a name that has never been set, `notify` fails with
`AttributeMissing` — performing no subscriber invocation — exactly when the
name has at least one registered subscriber; with no subscribers the name is
skipped and `notify` returns 0 with no invocations. -/
theorem c5_notify_never_set (e : Entity V) (name : String)
    (h : e.attrs name = none) :
    (e.subs name = [] → notifyFn e [name] = Except.ok (e, 0, []))
    ∧ (e.subs name ≠ [] →
        notifyFn e [name] = Except.error (NotifyError.attributeMissing name)) := by
  constructor
  · intro hs
    simp [notifyFn, notifyGo, hs, Except.map]
  · intro hs
    rcases hx : e.subs name with _ | ⟨c, cs⟩
    · exact absurd hx hs
    · simp [notifyFn, notifyGo, hx, h, Except.map]

theorem c5_notify_never_set_witness :
    notifyFn (⟨fun _ => none, fun n => if n = "x" then [0] else []⟩ : Entity Nat) ["x"]
      = Except.error (NotifyError.attributeMissing "x") :=
  (c5_notify_never_set
    (⟨fun _ => none, fun n => if n = "x" then [0] else []⟩ : Entity Nat) "x" rfl).2
    (by decide)

/-- C6 (counterexample): with subscribers `0` and `1` registered for `"x"`
(in that iteration order) and subscriber `0` raising, a `set` on `"x"`
invokes only subscriber `0`, the exception propagates, and subscriber `1`
never receives the event — one subscriber's failure does prevent dispatch to
the remaining subscribers. -/
theorem c6_counterexample :
    (setattrRaising
        (⟨fun _ => none, fun n => if n = "x" then [0, 1] else []⟩ : Entity Nat)
        (fun c => c == 0) "x" 5).2 = ([0], true)
    ∧ 1 ∉ (setattrRaising
        (⟨fun _ => none, fun n => if n = "x" then [0, 1] else []⟩ : Entity Nat)
        (fun c => c == 0) "x" 5).2.1 := by
  constructor
  · rfl
  · decide

/-- C6 (amended): the fan-out loops of `set`, `delete` and `notify` are not
isolated.  In each of the three, the subscribers invoked for the event are
exactly the longest raise-free prefix of the iteration order, plus the first
raising subscriber when one exists — in which case the exception propagates
to the mutator/caller and the later subscribers are not invoked; only when no
subscriber raises does dispatch complete in full.  The attribute store (for
`set`) and removal (for `delete`) still happen before the fan-out. -/
theorem c6_fanout_prefix (e : Entity V) (raises : Nat → Bool) (name : String)
    (v : V) :
    ((setattrRaising e raises name v).1.attrs name = some v
      ∧ (setattrRaising e raises name v).2 = prefixUntilRaise raises (e.subs name))
    ∧ (delattrRaising e raises name).map (fun pr => ((pr.1).attrs name, pr.2))
        = (e.attrs name).map (fun _ => (none, prefixUntilRaise raises (e.subs name)))
    ∧ notifyRaising e raises [name] =
        (match e.subs name, e.attrs name with
         | [], _ => Except.ok ([], false)
         | _ :: _, none => Except.error (NotifyError.attributeMissing name)
         | _ :: _, some _ => Except.ok (prefixUntilRaise raises (e.subs name))) := by
  refine ⟨⟨by simp [setattrRaising, Entity.store], ?_⟩, ?_, ?_⟩
  · simpa [setattrRaising, Entity.store] using dispatchLoop_eq raises (e.subs name)
  · rcases h : e.attrs name with _ | w
    · simp [delattrRaising, h]
    · simp [delattrRaising, h, Entity.remove, dispatchLoop_eq]
  · rcases hs : e.subs name with _ | ⟨c, cs⟩
    · simp [notifyRaising, notifyRaisingGo, hs]
    · rcases h : e.attrs name with _ | w
      · simp [notifyRaising, notifyRaisingGo, hs, h]
      · rw [notifyRaising]
        simp only [notifyRaisingGo, hs, h, dispatchLoop_eq, List.nil_append]
        cases hpr : (prefixUntilRaise raises (c :: cs)).2
        · rw [if_neg (by decide)]
          exact congrArg Except.ok (Prod.ext rfl hpr.symm)
        · rw [if_pos rfl]
          exact congrArg Except.ok (Prod.ext rfl hpr.symm)

/-- C7: deletion distinctness. Deleting a currently-set attribute removes it
and synchronously invokes every subscriber with the `DELETED` sentinel, and
the sentinel is distinct from every ordinary value deliverable by `set`. -/
theorem c7_delete_sentinel (e : Entity V) (name : String) (w : V)
    (h : e.attrs name = some w) :
    ((delattrFn e name).map fun pr =>
        ((pr.1).attrs name, pr.2.map fun inv => (inv.cb, inv.arg)))
      = some (none, (e.subs name).map fun c => (c, ObsVal.deleted))
    ∧ ∀ v : V, (ObsVal.deleted : ObsVal V) ≠ ObsVal.ofVal v := by
  refine ⟨?_, fun v hv => ObsVal.noConfusion hv⟩
  simp [delattrFn, h, Entity.remove, List.map_map, Function.comp]

theorem c7_delete_sentinel_witness :
    ((delattrFn (⟨fun n => if n = "x" then some (some 0) else none,
          fun n => if n = "x" then [0] else []⟩ : Entity (Option Int)) "x").map fun pr =>
        ((pr.1).attrs "x", pr.2.map fun inv => (inv.cb, inv.arg)))
      = some (none, [(0, ObsVal.deleted)])
    ∧ (ObsVal.deleted : ObsVal (Option Int)) ≠ ObsVal.ofVal none
    ∧ (ObsVal.deleted : ObsVal (Option Int)) ≠ ObsVal.ofVal (some 0) :=
  ⟨((c7_delete_sentinel
      (⟨fun n => if n = "x" then some (some 0) else none,
        fun n => if n = "x" then [0] else []⟩ : Entity (Option Int)) "x" (some 0)
      (by decide)).1).trans (by decide),
   (c7_delete_sentinel
      (⟨fun n => if n = "x" then some (some 0) else none,
        fun n => if n = "x" then [0] else []⟩ : Entity (Option Int)) "x" (some 0)
      (by decide)).2 none,
   (c7_delete_sentinel
      (⟨fun n => if n = "x" then some (some 0) else none,
        fun n => if n = "x" then [0] else []⟩ : Entity (Option Int)) "x" (some 0)
      (by decide)).2 (some 0)⟩

/-- C9: mutation happens before dispatch. Every subscriber invocation
performed during the fan-out of a `set` observes the attribute already equal
to the new value, and every invocation during the fan-out of a `delete`
observes the attribute already absent. -/
theorem c9_store_before_dispatch [DecidableEq V] (e : Entity V)
    (name : String) (v : V) :
    ((setattrFn e name v).2.all
        fun inv => decide (inv.state.attrs name = some v)) = true
    ∧ (((delattrFn e name).map fun pr =>
          pr.2.all fun inv => decide (inv.state.attrs name = none)).getD true) = true := by
  constructor
  · simp [setattrFn, Entity.store, List.all_map, Function.comp, List.all_eq_true]
  · rcases h : e.attrs name with _ | w
    · simp [delattrFn, h]
    · simp [delattrFn, h, Entity.remove, List.all_map, Function.comp, List.all_eq_true]

/-- C10: a non-awaitable handler result leaves the exclusive driver inert:
no previously registered task is cancelled, no task is created, and the
`ExitStack` registration is unchanged — a still-running prior invocation
keeps running. -/
theorem c10_sync_result_inert (s : SwState) (t : Nat) :
    switchStep s HRes.sync = (s, [])
    ∧ Act.cancel t ∉ (switchStep s HRes.sync).2
    ∧ Act.spawn t ∉ (switchStep s HRes.sync).2 :=
  ⟨rfl, by simp [switchStep], by simp [switchStep]⟩

lemma notifyGo_ok (e : Entity V) (names : List String) (count : Nat)
    (log : List (Invocation V))
    (h : ∀ n ∈ names, (e.attrs n).isSome ∧ e.subs n ≠ []) :
    notifyGo e names count log =
      Except.ok (count + (names.map fun n => (e.subs n).length).sum,
        log ++ notifySpecInvocations e names) := by
  induction names generalizing count log with
  | nil => simp [notifyGo, notifySpecInvocations]
  | cons name rest ih =>
    obtain ⟨hsome, hne⟩ := h name (by simp)
    rcases hsubs : e.subs name with _ | ⟨c, cs⟩
    · exact absurd hsubs hne
    rcases hattr : e.attrs name with _ | w
    · rw [hattr] at hsome
      simp at hsome
    have hrest : ∀ n ∈ rest, (e.attrs n).isSome ∧ e.subs n ≠ [] :=
      fun n hn => h n (List.mem_cons_of_mem _ hn)
    simp only [notifyGo, hsubs, hattr, ih _ _ hrest, notifySpecInvocations,
      List.foldr_cons, List.map_cons, List.sum_cons]
    rw [← notifySpecInvocations]
    simp [Nat.add_assoc, List.append_assoc]

/-- C8: forced notify. When every listed name currently has a value and at
least one subscriber, `notify` re-invokes all subscribers of each name with
that name's current value, leaves the entity unchanged, and returns the sum
over the names of their subscriber counts. -/
theorem c8_notify_reinvokes_all (e : Entity V) (names : List String)
    (h : ∀ n ∈ names, (e.attrs n).isSome ∧ e.subs n ≠ []) :
    notifyFn e names =
      Except.ok (e, (names.map fun n => (e.subs n).length).sum,
        notifySpecInvocations e names) := by
  rw [notifyFn, notifyGo_ok e names 0 [] h]
  simp [Except.map]

theorem c8_notify_reinvokes_all_witness :
    (notifyFn (⟨fun n => if n = "x" then some 1 else if n = "y" then some 2 else none,
        fun n => if n = "x" then [0, 1] else if n = "y" then [2] else []⟩ : Entity Nat)
        ["x", "y"]).map (fun pr => (pr.2.1, pr.2.2.map fun inv => (inv.cb, inv.arg)))
      = Except.ok (3, [(0, ObsVal.ofVal 1), (1, ObsVal.ofVal 1), (2, ObsVal.ofVal 2)]) := by
  rw [c8_notify_reinvokes_all _ _ (by decide)]
  rfl

lemma alternatesFrom_disp_append (o : Bool) (vs : List V) (l : List (Ev V)) :
    alternatesFrom o (vs.map Ev.disp ++ l) = alternatesFrom o l := by
  induction vs with
  | nil => rfl
  | cons v vs ih => simp [alternatesFrom, ih]

lemma begValues_disp_append (vs : List V) (l : List (Ev V)) :
    begValues (vs.map Ev.disp ++ l) = begValues l := by
  induction vs with
  | nil => rfl
  | cons v vs ih =>
    simp only [List.map_cons, List.cons_append, begValues, List.filterMap_cons]
    exact ih

lemma begValues_beg (v : V) (l : List (Ev V)) :
    begValues (Ev.beg v :: l) = v :: begValues l := by
  simp [begValues]

lemma begValues_fin (v : V) (l : List (Ev V)) :
    begValues (Ev.fin v :: l) = begValues l := by
  simp [begValues]

lemma dispatchAll_getLast (b : Bridge V) (vs : List V) (w : V)
    (h : vs.getLast? = some w) :
    dispatchAll b vs = ⟨some w, true⟩ := by
  induction vs generalizing b with
  | nil => simp at h
  | cons v vs ih =>
    rcases vs with _ | ⟨v2, vs2⟩
    · simp at h
      subst h
      rfl
    · rw [List.getLast?_cons_cons] at h
      exact ih _ h

lemma seqRun_alternates (batches : List (List V)) (b : Bridge V) :
    alternatesFrom false (seqRun b batches) = true := by
  induction batches generalizing b with
  | nil => rfl
  | cons batch rest ih =>
    by_cases hb : b.signaled
    · rcases hv : b.value with _ | v
      · simp [seqRun, hb, Bridge.send, hv, alternatesFrom]
      · simp [seqRun, hb, Bridge.send, hv, alternatesFrom,
          alternatesFrom_disp_append, ih]
    · simp [seqRun, hb, alternatesFrom_disp_append, ih]

/-- C4: sequential driver. (1) In every execution of the `seq` driver the
handler-invocation events strictly alternate begin/end — invocations never
overlap in time.  (2) When several dispatches coalesce while an invocation
runs, the next invocation receives the most recent dispatched value, not an
intermediate one. -/
theorem c4_seq_nonoverlap_latest {V : Type} :
    (∀ (b : Bridge V) (batches : List (List V)),
        alternatesFrom false (seqRun b batches) = true)
    ∧ (∀ (b : Bridge V) (v w : V) (batch batch2 : List V) (rest : List (List V)),
        b.signaled = true → b.value = some v → batch.getLast? = some w →
        (begValues (seqRun b (batch :: batch2 :: rest))).take 2 = [v, w]) := by
  constructor
  · exact fun b batches => seqRun_alternates batches b
  · intro b v w batch batch2 rest hb hv hw
    have hseq1 : seqRun b (batch :: batch2 :: rest) =
        Ev.beg v :: (batch.map Ev.disp ++
          (Ev.fin v :: seqRun (dispatchAll ⟨b.value, false⟩ batch)
            (batch2 :: rest))) := by
      simp [seqRun, hb, Bridge.send, hv]
    rw [hseq1, dispatchAll_getLast _ batch w hw]
    have hseq2 : seqRun (⟨some w, true⟩ : Bridge V) (batch2 :: rest) =
        Ev.beg w :: (batch2.map Ev.disp ++
          (Ev.fin w :: seqRun (dispatchAll ⟨some w, false⟩ batch2) rest)) := by
      simp [seqRun, Bridge.send]
    rw [hseq2, begValues_beg, begValues_disp_append, begValues_fin, begValues_beg]
    rfl

theorem c4_seq_nonoverlap_latest_witness :
    alternatesFrom false (seqRun (⟨some 1, true⟩ : Bridge Nat) [[5, 7], [9]]) = true
    ∧ (begValues (seqRun (⟨some 1, true⟩ : Bridge Nat) [[5, 7], [9], []])).take 2
        = [1, 7] :=
  ⟨c4_seq_nonoverlap_latest.1 _ _,
   c4_seq_nonoverlap_latest.2 ⟨some 1, true⟩ 1 7 [5, 7] [9] [[]] rfl rfl (by decide)⟩

lemma boundedLive_switchRun (inputs : List HRes) (s : SwState)
    (h : s.stack.length ≤ 1) :
    boundedLive s.stack (switchRun s inputs) = true := by
  induction inputs generalizing s with
  | nil =>
    rcases hst : s.stack with _ | ⟨p, ps⟩
    · simp [switchRun, switchTeardown, hst, boundedLive]
    · rcases ps with _ | ⟨q, qs⟩
      · simp [switchRun, switchTeardown, hst, boundedLive, applyAct]
      · rw [hst] at h
        simp at h
  | cons r rest ih =>
    cases r with
    | sync => simpa [switchRun, switchStep] using ih s h
    | coro =>
      rcases hst : s.stack with _ | ⟨p, ps⟩
      · have := ih ⟨[s.next], s.next + 1⟩ (by simp)
        simpa [switchRun, switchStep, hst, boundedLive, applyAct] using this
      · rcases ps with _ | ⟨q, qs⟩
        · have := ih ⟨[s.next], s.next + 1⟩ (by simp)
          simpa [switchRun, switchStep, hst, boundedLive, applyAct,
            List.erase_cons_head] using this
        · rw [hst] at h
          simp at h

/-- C3: exclusive driver. (1) When a new value arrives whose handler result
is awaitable while a prior task is registered, the `ExitStack` cancels that
prior task strictly before the new task is spawned, and only the new task
remains registered.  (2) In every run of the driver, after each
scheduler-visible action at most one handler task is live (cancellation
modelled as immediately effective, per the spec's cooperative reading).
(3) On stream termination the teardown cancels the still-registered task. -/
theorem c3_exclusive_cancel_restart :
    (∀ (s : SwState) (p : Nat), s.stack = [p] →
        switchStep s HRes.coro =
          (⟨[s.next], s.next + 1⟩, [Act.cancel p, Act.spawn s.next]))
    ∧ (∀ (s : SwState), s.stack.length ≤ 1 →
        ∀ inputs : List HRes, boundedLive s.stack (switchRun s inputs) = true)
    ∧ (∀ (s : SwState) (p : Nat), s.stack = [p] →
        switchTeardown s = [Act.cancel p]) := by
  refine ⟨?_, fun s h inputs => boundedLive_switchRun inputs s h, ?_⟩
  · intro s p hp
    simp [switchStep, hp]
  · intro s p hp
    simp [switchTeardown, hp]

theorem c3_exclusive_cancel_restart_witness :
    switchStep ⟨[7], 9⟩ HRes.coro = (⟨[9], 10⟩, [Act.cancel 7, Act.spawn 9])
    ∧ boundedLive [7] (switchRun ⟨[7], 9⟩ [HRes.coro, HRes.sync, HRes.coro]) = true
    ∧ switchTeardown ⟨[7], 9⟩ = [Act.cancel 7] :=
  ⟨c3_exclusive_cancel_restart.1 ⟨[7], 9⟩ 7 rfl,
   c3_exclusive_cancel_restart.2.1 ⟨[7], 9⟩ (by decide) [HRes.coro, HRes.sync, HRes.coro],
   c3_exclusive_cancel_restart.2.2 ⟨[7], 9⟩ 7 rfl⟩

end Aioobserve
